import Mathlib

/-
Shallow embedding of
`js_modules/dagster-ui/packages/ui-core/src/assets/lineage/useColumnLineageDataForAssets.tsx`:
the column-lineage resolution cache. Asset keys are their path segment lists;
JavaScript objects are association lists with `Object.fromEntries` last-wins
lookup or, for the cache, functions `String → Option _`; `undefined`/`null`
are `Option.none`; a thrown exception is `Except.error`.
-/

namespace ColumnLineage

/-- One upstream reference as serialized by the server (`AssetColumnLineageServer`
value element). Per the source comment, `upstream_asset_key` is
`[["key_part_1", "key_part_2"]]`: the outer array holds a single item, a
serialization oddity. -/
structure ServerUpstream where
  upstream_asset_key : List (List String)
  upstream_column_name : String
deriving DecidableEq

/-- The parsed lineage payload (`AssetColumnLineageServer`): column name to its
list of upstream references, as an entry list in object-key order. -/
abbrev AssetColumnLineageServer := List (String × List ServerUpstream)

/-- A column of the consolidated table schema, as produced by the external
`buildConsolidatedColumnSchema` collaborator: name plus nullable type and
description. -/
structure SchemaColumn where
  name : String
  type : Option String
  description : Option String
deriving DecidableEq

/-- A decoded upstream reference (`{assetKey: {path: ...}, columnName: ...}`).
`assetKeyPath = none` models the `undefined` path produced when the outer
`upstream_asset_key` array is empty and the unguarded `[0]!` access yields
`undefined`. -/
structure UpstreamRef where
  assetKeyPath : Option (List String)
  columnName : String
deriving DecidableEq

/-- `AssetColumnLineageLocalColumn` from the source: one merged column
description. -/
structure AssetColumnLineageLocalColumn where
  name : String
  type : Option String
  description : Option String
  asOf : Option String
  upstream : List UpstreamRef
deriving DecidableEq

/-- `AssetColumnLineageLocal`: the resolved entity, keyed by column name, as an
entry list in object-key order. Empty (`{}`) means "checked, no lineage". -/
abbrev AssetColumnLineageLocal := List (String × AssetColumnLineageLocalColumn)

/-- One materialization of an asset. `lineageEntry` models the result of
`metadataEntries.find(isCanonicalColumnLineageEntry)` together with
`JSON.parse` of its `jsonString`: `none` means no canonical lineage entry was
found, `some none` means the entry exists but its JSON string is malformed
(`JSON.parse` throws), and `some (some payload)` is a successful parse. -/
structure Materialization where
  timestamp : String
  lineageEntry : Option (Option AssetColumnLineageServer)
deriving DecidableEq

/-- An asset node of the remote response: its key and its (at most one, per
`assetMaterializations(limit: 1)`) most recent materializations. -/
structure AssetNode where
  assetKey : List String
  assetMaterializations : List Materialization
deriving DecidableEq

/-- Modelled from the spec: `buildConsolidatedColumnSchema` (the external
schema-consolidation collaborator, outside this module) combines an asset's
materialization-time and definition-time metadata into a column schema;
`none` models an absent `tableSchema?.schema`. The decoder is parametric in
this collaborator. -/
abbrev BuildSchema := AssetNode → Materialization → Option (List SchemaColumn)

/-- The JavaScript coercion `x || null` applied to a nullable string:
`undefined`, `null` and the empty string are falsy and collapse to `null`. -/
def jsOrNull (s : Option String) : Option String :=
  match s with
  | none => none
  | some t => if t = "" then none else some t

/-- `Object.fromEntries` followed by bracket lookup: among duplicate keys the
last entry wins. -/
def fromEntries {α : Type} (l : List (String × α)) (id : String) : Option α :=
  (l.reverse.find? (fun p => p.fst == id)).map Prod.snd

/-- `(u) => ({assetKey: {path: u.upstream_asset_key[0]!}, columnName:
u.upstream_column_name})`: the unguarded index `[0]` is `List.head?`, so an
empty outer array yields an `undefined` path (`none`) rather than an error. -/
def decodeUpstream (u : ServerUpstream) : UpstreamRef :=
  { assetKeyPath := u.upstream_asset_key.head?
    columnName := u.upstream_column_name }

/-- The per-column body of the `Object.entries(lineageParsed).map` in
`getColumnLineage`: combine the column name, materialization timestamp,
schema lookup (`schemaParsed[column]?.type || null` and likewise for the
description) and the decoded upstream list. -/
def decodeColumn (ts : String) (schemaParsed : String → Option SchemaColumn)
    (column : String) (m : List ServerUpstream) : AssetColumnLineageLocalColumn :=
  { name := column
    asOf := some ts
    type := jsOrNull ((schemaParsed column).bind (fun c => c.type))
    description := jsOrNull ((schemaParsed column).bind (fun c => c.description))
    upstream := m.map decodeUpstream }

/-- `Object.fromEntries(tableSchema.schema.columns.map((col) => [col.name,
col]))`, or `{}` when `tableSchema?.schema` is absent. -/
def schemaParsedOf (bs : BuildSchema) (asset : AssetNode) (m : Materialization) :
    String → Option SchemaColumn :=
  match bs asset m with
  | none => fun _ => none
  | some cols => fromEntries (cols.map (fun c => (c.name, c)))

/-- `getColumnLineage`: if there is no materialization or no canonical lineage
metadata entry, return `{}` (empty, not an error, so the hook does not try to
fetch the asset again); if the lineage JSON is malformed, `JSON.parse` throws
(`Except.error`); otherwise decode every column of the payload. -/
def getColumnLineage (bs : BuildSchema) (asset : AssetNode) :
    Except Unit AssetColumnLineageLocal :=
  match asset.assetMaterializations.head? with
  | none => .ok []
  | some m =>
    match m.lineageEntry with
    | none => .ok []
    | some none => .error ()
    | some (some lineageParsed) =>
      .ok (lineageParsed.map (fun p =>
        (p.fst, decodeColumn m.timestamp (schemaParsedOf bs asset m) p.fst p.snd)))

/-- Modelled from the spec: `toGraphId` (imported from `asset-graph/Utils`,
outside this module) derives a stable string identifier from an asset key's
path. -/
def toGraphId (path : List String) : String := toString path

/-- The cache (`AssetColumnLineages`): entity identifier to resolved entity or
absent. -/
abbrev AssetColumnLineages := String → Option AssetColumnLineageLocal

/-- `assetKeys.filter((a) => !loaded[toGraphId(a)])`: the requested keys whose
identifier is absent from the cache. A present value is an object and hence
truthy even when it is the empty entity `{}`. -/
def missing (assetKeys : List (List String)) (loaded : AssetColumnLineages) :
    List (List String) :=
  assetKeys.filter (fun a => (loaded (toGraphId a)).isNone)

/-- `setLoaded((loaded) => ({...loaded, ...Object.fromEntries(entries)}))`: a
pure functional update in which every new entry is inserted, overriding an
existing entry with the same identifier. -/
def mergeLoaded (loaded : AssetColumnLineages)
    (entries : List (String × AssetColumnLineageLocal)) : AssetColumnLineages :=
  fun id =>
    match fromEntries entries id with
    | some v => some v
    | none => loaded id

/-- `data.assetNodes.map((n) => [toGraphId(n.assetKey), getColumnLineage(n)])`:
a decode failure for any node aborts the whole batch. -/
def decodeBatch (bs : BuildSchema) : List AssetNode →
    Except Unit (List (String × AssetColumnLineageLocal))
  | [] => .ok []
  | n :: rest =>
    match getColumnLineage bs n with
    | .error e => .error e
    | .ok l =>
      match decodeBatch bs rest with
      | .error e => .error e
      | .ok tail => .ok ((toGraphId n.assetKey, l) :: tail)

/-- State of one hook instance: the `loaded` cache, the `fetching.current`
in-flight flag, the keys of the outstanding remote call (if any), and counters
of issued and completed remote calls. -/
structure HookState where
  loaded : AssetColumnLineages
  fetching : Bool
  outstanding : Option (List (List String))
  calls : Nat
  completions : Nat

/-- The initial hook state: `useState({})`, `useRef(false)`, nothing issued. -/
def initState : HookState :=
  { loaded := fun _ => none
    fetching := false
    outstanding := none
    calls := 0
    completions := 0 }

/-- One run of the `React.useEffect` body: `if (!fetching.current &&
missing.length) void fetch()`, where `fetch` synchronously sets
`fetching.current = true` and issues the remote call carrying the `missing`
keys as of this moment. Otherwise nothing happens. -/
def reeval (assetKeys : List (List String)) (s : HookState) : HookState :=
  let m := missing assetKeys s.loaded
  if s.fetching = false ∧ m ≠ [] then
    { s with fetching := true, outstanding := some m, calls := s.calls + 1 }
  else s

/-- Outcome of the outstanding remote call: the transport fails, or a response
arrives with a list of asset nodes. -/
inductive FetchResult where
  | transportError : FetchResult
  | response : List AssetNode → FetchResult

/-- Completion of the outstanding remote call, continuing the `fetch` async
function after its `await`.
Transport error: `await client.query(...)` throws, so the following line
`fetching.current = false` never runs and the flag stays set; `setLoaded` is
never reached, so the cache is unchanged.
Response: the flag is cleared first; then the `setLoaded` updater decodes the
batch. If any decode throws, the state update fails and the cache is
unchanged; otherwise the decoded entries are merged. -/
def complete (bs : BuildSchema) (r : FetchResult) (s : HookState) : HookState :=
  match r with
  | .transportError =>
      { s with outstanding := none, completions := s.completions + 1 }
  | .response nodes =>
      match decodeBatch bs nodes with
      | .error _ =>
          { s with
            fetching := false
            outstanding := none
            completions := s.completions + 1 }
      | .ok entries =>
          { s with
            fetching := false
            outstanding := none
            completions := s.completions + 1
            loaded := mergeLoaded s.loaded entries }

/-- A transition of the hook: an effect re-evaluation with some requested key
set, or the completion of the outstanding call (only one call can complete, and
only while one is outstanding). -/
inductive Step (bs : BuildSchema) : HookState → HookState → Prop where
  | reeval (ks : List (List String)) (s : HookState) : Step bs s (reeval ks s)
  | complete (r : FetchResult) (s : HookState) (h : s.outstanding.isSome) :
      Step bs s (complete bs r s)

/-- The states reachable from the initial hook state. -/
inductive Reachable (bs : BuildSchema) : HookState → Prop where
  | init : Reachable bs initState
  | step {s t : HookState} : Reachable bs s → Step bs s t → Reachable bs t

lemma fromEntries_eq_none {α : Type} (l : List (String × α)) (id : String)
    (h : ∀ p ∈ l, p.fst ≠ id) : fromEntries l id = none := by
  have : l.reverse.find? (fun p => p.fst == id) = none := by
    rw [List.find?_eq_none]
    intro p hp
    simpa using h p (List.mem_reverse.mp hp)
  simp [fromEntries, this]

lemma mergeLoaded_eq_of_not_mem (loaded : AssetColumnLineages)
    (entries : List (String × AssetColumnLineageLocal)) (id : String)
    (h : id ∉ entries.map Prod.fst) : mergeLoaded loaded entries id = loaded id := by
  have hn : fromEntries entries id = none := by
    refine fromEntries_eq_none entries id (fun p hp hpe => h ?_)
    exact hpe ▸ List.mem_map_of_mem Prod.fst hp
  simp [mergeLoaded, hn]

lemma mergeLoaded_isNone (loaded : AssetColumnLineages)
    (entries : List (String × AssetColumnLineageLocal)) (id : String)
    (h : (mergeLoaded loaded entries id).isNone = true) : (loaded id).isNone = true := by
  unfold mergeLoaded at h
  cases hfe : fromEntries entries id with
  | none => rw [hfe] at h; exact h
  | some v => rw [hfe] at h; simp at h

/-- C2: decoding a payload mapping column "a" to one upstream reference with
double-wrapped key [["t1","col_x"]] and upstream column "x", against a schema
giving "a" the type "INT", yields exactly the column "a" with name "a", type
"INT" and upstream entityKey path ["t1","col_x"]; in general a decoded
column's upstream list is the pointwise decoding of the payload's references,
each decoded path is the first inner list of the double-wrapped encoding, and
a column name absent from the schema yields null type and null description
rather than an error. -/
theorem c2_decode_example
    (ts : String) (sp : String → Option SchemaColumn) (column : String)
    (ups : List ServerUpstream) (u : ServerUpstream)
    (first : List String) (rest : List (List String)) (cols : List SchemaColumn)
    (hu : u.upstream_asset_key = first :: rest)
    (habs : ∀ c ∈ cols, c.name ≠ column) :
    (getColumnLineage (fun _ _ => some [⟨"a", some "INT", none⟩])
        ⟨["t"], [⟨"1700", some (some [("a", [⟨[["t1", "col_x"]], "x"⟩])])⟩]⟩ =
      .ok [("a", ⟨"a", some "INT", none, some "1700",
        [⟨some ["t1", "col_x"], "x"⟩]⟩)]) ∧
    (decodeColumn ts sp column ups).upstream = ups.map decodeUpstream ∧
    (decodeUpstream u).assetKeyPath = some first ∧
    (decodeColumn ts (fromEntries (cols.map fun c => (c.name, c))) column ups).type = none ∧
    (decodeColumn ts (fromEntries (cols.map fun c => (c.name, c))) column ups).description = none := by
  have hcol : fromEntries (cols.map fun c => (c.name, c)) column = none := by
    refine fromEntries_eq_none _ _ ?_
    intro p hp
    obtain ⟨c, hc, hpc⟩ := List.mem_map.mp hp
    rw [← hpc]
    exact habs c hc
  refine ⟨rfl, rfl, ?_, ?_, ?_⟩
  · simp [decodeUpstream, hu]
  · simp [decodeColumn, hcol, jsOrNull]
  · simp [decodeColumn, hcol, jsOrNull]

theorem c2_decode_example_witness :
    (decodeUpstream ⟨[["p"]], "c"⟩).assetKeyPath = some ["p"] ∧
    (decodeColumn "0" (fromEntries ([⟨"b", some "INT", none⟩].map
      fun c => (c.name, c))) "a" []).type = none :=
  ⟨(c2_decode_example "0" (fun _ => none) "a" [] ⟨[["p"]], "c"⟩ ["p"] []
      [⟨"b", some "INT", none⟩] rfl (by decide)).2.2.1,
   (c2_decode_example "0" (fun _ => none) "a" [] ⟨[["p"]], "c"⟩ ["p"] []
      [⟨"b", some "INT", none⟩] rfl (by decide)).2.2.2.1⟩

/-- C3: `missing` returns exactly the requested keys whose derived identifier
is absent from the cache mapping, in the same relative order as the requested
input. -/
theorem c3_missing_exact (assetKeys : List (List String)) (loaded : AssetColumnLineages) :
    (∀ k, k ∈ missing assetKeys loaded ↔
      (k ∈ assetKeys ∧ loaded (toGraphId k) = none)) ∧
    (missing assetKeys loaded).Sublist assetKeys := by
  constructor
  · intro k
    simp [missing, List.mem_filter, Option.isNone_iff_eq_none]
  · exact List.filter_sublist assetKeys

/-- C4: for a fixed requested key set, `missing` is non-increasing as a set
across merges: merging never removes an existing cache entry, and a key whose
identifier is already present in the cache (even mapped to the empty entity)
is never again reported missing. -/
theorem c4_missing_monotone (assetKeys : List (List String))
    (loaded : AssetColumnLineages) (entries : List (String × AssetColumnLineageLocal)) :
    (∀ k, k ∈ missing assetKeys (mergeLoaded loaded entries) →
      k ∈ missing assetKeys loaded) ∧
    (∀ id v, loaded id = some v → ∃ w, mergeLoaded loaded entries id = some w) ∧
    (∀ k v, k ∈ assetKeys → loaded (toGraphId k) = some v →
      k ∉ missing assetKeys (mergeLoaded loaded entries)) := by
  have hsome : ∀ id v, loaded id = some v → ∃ w, mergeLoaded loaded entries id = some w := by
    intro id v hv
    unfold mergeLoaded
    cases hfe : fromEntries entries id with
    | none => exact ⟨v, hv⟩
    | some w => exact ⟨w, rfl⟩
  refine ⟨?_, hsome, ?_⟩
  · intro k hk
    rw [missing, List.mem_filter] at hk ⊢
    exact ⟨hk.1, mergeLoaded_isNone loaded entries (toGraphId k) hk.2⟩
  · intro k v _ hv hk
    rw [missing, List.mem_filter] at hk
    obtain ⟨w, hw⟩ := hsome (toGraphId k) v hv
    rw [hw] at hk
    simp at hk

theorem c4_missing_monotone_witness :
    ["t1"] ∉ missing [["t1"]]
      (mergeLoaded (mergeLoaded (fun _ => none) [(toGraphId ["t1"], [])]) []) :=
  (c4_missing_monotone [["t1"]] (mergeLoaded (fun _ => none) [(toGraphId ["t1"], [])]) []).2.2
    ["t1"] [] (by decide) rfl

/-- C6: `merge` is idempotent (merging the same batch twice equals merging it
once), and the merged cache is the old one with every new entry inserted or
overwritten: an identifier present in the batch maps to the batch's value, and
one absent from the batch keeps its old value (the update is pure, returning a
new cache value). -/
theorem c6_merge_idempotent (loaded : AssetColumnLineages)
    (entries : List (String × AssetColumnLineageLocal)) :
    mergeLoaded (mergeLoaded loaded entries) entries = mergeLoaded loaded entries ∧
    (∀ id v, fromEntries entries id = some v → mergeLoaded loaded entries id = some v) ∧
    (∀ id, fromEntries entries id = none → mergeLoaded loaded entries id = loaded id) := by
  refine ⟨funext fun id => ?_, fun id v h => ?_, fun id h => ?_⟩
  · unfold mergeLoaded
    cases hfe : fromEntries entries id with
    | none => rfl
    | some v => rfl
  · unfold mergeLoaded; rw [h]
  · unfold mergeLoaded; rw [h]

theorem c6_merge_idempotent_witness :
    mergeLoaded (fun _ => none) [("a", [])] "a" = some [] :=
  (c6_merge_idempotent (fun _ => none) [("a", [])]).2.1 "a" [] rfl

/-- C7: an entity with no materialization, or whose materialization carries no
lineage metadata entry, decodes to the empty ResolvedEntity (not an error),
and once the empty entity is merged into the cache under the entity's
identifier the key is excluded from every subsequent `missing` computation. -/
theorem c7_empty_decode (bs : BuildSchema) (asset : AssetNode)
    (h : asset.assetMaterializations.head?.bind (fun m => m.lineageEntry) = none) :
    getColumnLineage bs asset = .ok [] ∧
    (∀ ks loaded, asset.assetKey ∈ ks →
      asset.assetKey ∉ missing ks (mergeLoaded loaded [(toGraphId asset.assetKey, [])])) := by
  constructor
  · unfold getColumnLineage
    cases hm : asset.assetMaterializations.head? with
    | none => rfl
    | some m =>
      rw [hm, Option.some_bind] at h
      simp only [h]
  · intro ks loaded _ hmem
    rw [missing, List.mem_filter] at hmem
    have : mergeLoaded loaded [(toGraphId asset.assetKey, [])] (toGraphId asset.assetKey) =
        some [] := by
      simp [mergeLoaded, fromEntries]
    rw [this] at hmem
    simp at hmem

theorem c7_empty_decode_witness :
    getColumnLineage (fun _ _ => none) ⟨["t1"], []⟩ = .ok [] ∧
    ["t1"] ∉ missing [["t1"]] (mergeLoaded (fun _ => none) [(toGraphId ["t1"], [])]) :=
  ⟨(c7_empty_decode (fun _ _ => none) ⟨["t1"], []⟩ rfl).1,
   (c7_empty_decode (fun _ _ => none) ⟨["t1"], []⟩ rfl).2 [["t1"]] (fun _ => none) (by decide)⟩

/-- C8: the decoded output's column names are exactly the keys of the parsed
lineage payload, so a column present in the schema but absent from the payload
never appears in the output. -/
theorem c8_output_keys (bs : BuildSchema) (asset : AssetNode) (m : Materialization)
    (payload : AssetColumnLineageServer) (out : AssetColumnLineageLocal)
    (h1 : asset.assetMaterializations.head? = some m)
    (h2 : m.lineageEntry = some (some payload))
    (h3 : getColumnLineage bs asset = .ok out) :
    out.map Prod.fst = payload.map Prod.fst ∧
    (∀ col, col ∉ payload.map Prod.fst → col ∉ out.map Prod.fst) := by
  have hout : out = payload.map (fun p =>
      (p.fst, decodeColumn m.timestamp (schemaParsedOf bs asset m) p.fst p.snd)) := by
    unfold getColumnLineage at h3
    rw [h1] at h3
    simp only [h2] at h3
    exact (Except.ok.inj h3).symm
  subst hout
  constructor
  · rw [List.map_map]
    rfl
  · intro col hcol hmem
    rw [List.map_map] at hmem
    exact hcol hmem

theorem c8_output_keys_witness :
    ([("a", (⟨"a", none, none, some "1", []⟩ : AssetColumnLineageLocalColumn))].map
      Prod.fst) = [("a", ([] : List ServerUpstream))].map Prod.fst :=
  (c8_output_keys (fun _ _ => none) ⟨["t"], [⟨"1", some (some [("a", [])])⟩]⟩
    ⟨"1", some (some [("a", [])])⟩ [("a", [])]
    [("a", ⟨"a", none, none, some "1", []⟩)] rfl rfl rfl).1

/-- C10: the unguarded index `upstream_asset_key[0]!` is safe whenever the
outer sequence is nonempty (the documented single-element encoding), yielding
the first inner sequence as the path; an upstream reference with an empty
outer sequence still decodes without an error, producing an upstream entry
whose path is undefined (`none`). -/
theorem c10_unguarded_index (u : ServerUpstream) (first : List String)
    (rest : List (List String)) (h : u.upstream_asset_key = first :: rest) :
    (decodeUpstream u).assetKeyPath = some first ∧
    (∀ v : ServerUpstream, v.upstream_asset_key = [] →
      (decodeUpstream v).assetKeyPath = none) ∧
    (getColumnLineage (fun _ _ => none)
        ⟨["t"], [⟨"1", some (some [("a", [⟨[], "x"⟩])])⟩]⟩ =
      .ok [("a", ⟨"a", none, none, some "1", [⟨none, "x"⟩]⟩)]) := by
  refine ⟨?_, ?_, rfl⟩
  · simp [decodeUpstream, h]
  · intro v hv
    simp [decodeUpstream, hv]

theorem c10_unguarded_index_witness :
    (decodeUpstream ⟨[["p1", "p2"]], "c"⟩).assetKeyPath = some ["p1", "p2"] :=
  (c10_unguarded_index ⟨[["p1", "p2"]], "c"⟩ ["p1", "p2"] [] rfl).1

lemma decodeBatch_ok_fst (bs : BuildSchema) (nodes : List AssetNode)
    (entries : List (String × AssetColumnLineageLocal))
    (h : decodeBatch bs nodes = .ok entries) :
    entries.map Prod.fst = nodes.map (fun n => toGraphId n.assetKey) := by
  induction nodes generalizing entries with
  | nil =>
    unfold decodeBatch at h
    cases h
    rfl
  | cons n rest ih =>
    unfold decodeBatch at h
    cases hg : getColumnLineage bs n with
    | error e => rw [hg] at h; cases h
    | ok l =>
      rw [hg] at h
      cases hr : decodeBatch bs rest with
      | error e => rw [hr] at h; cases h
      | ok tail =>
        rw [hr] at h
        cases h
        simp [ih tail hr]

/-- C9: a successful fetch cycle inserts cache entries exactly for the
entities present in the response: any identifier absent from the response
keeps its previous cache value, so a requested key the response does not
cover is not inserted (no negative caching), remains missing after the merge,
and is carried by the call the next re-evaluation issues. -/
theorem c9_no_negative_caching (bs : BuildSchema) (s : HookState)
    (nodes : List AssetNode) (entries : List (String × AssetColumnLineageLocal))
    (ks : List (List String)) (k : List String)
    (hdec : decodeBatch bs nodes = .ok entries)
    (hnot : toGraphId k ∉ nodes.map (fun n => toGraphId n.assetKey))
    (hk : k ∈ ks) (hmiss : s.loaded (toGraphId k) = none) :
    ((complete bs (.response nodes) s).loaded (toGraphId k) = none) ∧
    (k ∈ missing ks (complete bs (.response nodes) s).loaded) ∧
    (∀ id, id ∉ nodes.map (fun n => toGraphId n.assetKey) →
      (complete bs (.response nodes) s).loaded id = s.loaded id) ∧
    (∃ mset, (reeval ks (complete bs (.response nodes) s)).outstanding = some mset ∧
      k ∈ mset) := by
  have hloaded : (complete bs (.response nodes) s).loaded = mergeLoaded s.loaded entries := by
    unfold complete
    simp only [hdec]
  have hfetch : (complete bs (.response nodes) s).fetching = false := by
    unfold complete
    simp only [hdec]
  have hkeys : entries.map Prod.fst = nodes.map (fun n => toGraphId n.assetKey) :=
    decodeBatch_ok_fst bs nodes entries hdec
  have huntouched : ∀ id, id ∉ nodes.map (fun n => toGraphId n.assetKey) →
      (complete bs (.response nodes) s).loaded id = s.loaded id := by
    intro id hid
    rw [hloaded]
    exact mergeLoaded_eq_of_not_mem s.loaded entries id (hkeys ▸ hid)
  have hnone : (complete bs (.response nodes) s).loaded (toGraphId k) = none := by
    rw [huntouched (toGraphId k) hnot]
    exact hmiss
  have hmem : k ∈ missing ks (complete bs (.response nodes) s).loaded := by
    rw [missing, List.mem_filter]
    exact ⟨hk, by rw [hnone]; rfl⟩
  refine ⟨hnone, hmem, huntouched, ?_⟩
  refine ⟨missing ks (complete bs (.response nodes) s).loaded, ?_, hmem⟩
  have hne : missing ks (complete bs (.response nodes) s).loaded ≠ [] :=
    fun hemp => by rw [hemp] at hmem; cases hmem
  simp only [reeval, if_pos (And.intro hfetch hne)]

theorem c9_no_negative_caching_witness :
    ["t1"] ∈ missing [["t1"]] (complete (fun _ _ => none) (.response []) initState).loaded :=
  (c9_no_negative_caching (fun _ _ => none) initState [] [] [["t1"]] ["t1"]
    rfl (by simp) (by decide) rfl).2.1

lemma reeval_noop (ks : List (List String)) (s : HookState)
    (h : s.fetching = true ∨ missing ks s.loaded = []) : reeval ks s = s := by
  have : ¬(s.fetching = false ∧ missing ks s.loaded ≠ []) := by
    rintro ⟨hf, hm⟩
    rcases h with h | h
    · rw [h] at hf; cases hf
    · exact hm h
  simp only [reeval, if_neg this]

lemma reeval_fires (ks : List (List String)) (s : HookState)
    (hf : s.fetching = false) (hm : missing ks s.loaded ≠ []) :
    reeval ks s = { s with
      fetching := true
      outstanding := some (missing ks s.loaded)
      calls := s.calls + 1 } := by
  simp only [reeval, if_pos (And.intro hf hm)]

/-- The inductive invariant of the fetch state machine: the number of issued
calls exceeds the number of completed ones exactly by one when a call is
outstanding, and an outstanding call implies the in-flight flag is set. -/
def fetchInvariant (s : HookState) : Prop :=
  s.calls = s.completions + (if s.outstanding.isSome then 1 else 0) ∧
  (s.outstanding.isSome = true → s.fetching = true)

lemma fetchInvariant_step (bs : BuildSchema) (s t : HookState)
    (hst : Step bs s t) (ih : fetchInvariant s) : fetchInvariant t := by
  cases hst with
  | reeval ks =>
    by_cases hc : s.fetching = false ∧ missing ks s.loaded ≠ []
    · have ho : s.outstanding = none := by
        cases hos : s.outstanding with
        | none => rfl
        | some v =>
          have := ih.2 (by rw [hos]; rfl)
          rw [this] at hc
          exact absurd hc.1 (by simp)
      rw [reeval_fires ks s hc.1 hc.2]
      refine ⟨?_, fun _ => rfl⟩
      have h1 := ih.1
      rw [ho] at h1
      simp only [Option.isSome_none, Bool.false_eq_true, if_false] at h1
      simp [h1]
    · have : reeval ks s = s := by simp only [reeval, if_neg hc]
      rw [this]
      exact ih
  | complete r u hos =>
    obtain ⟨h1, h2⟩ := ih
    rw [if_pos hos] at h1
    cases r with
    | transportError =>
      exact ⟨by simp [complete, h1], by simp [complete]⟩
    | response nodes =>
      cases hdec : decodeBatch bs nodes with
      | error e =>
        exact ⟨by simp [complete, hdec, h1], by simp [complete, hdec]⟩
      | ok entries =>
        exact ⟨by simp [complete, hdec, h1], by simp [complete, hdec]⟩

lemma reachable_invariant (bs : BuildSchema) (s : HookState)
    (h : Reachable bs s) : fetchInvariant s := by
  induction h with
  | init => exact ⟨rfl, fun hx => by simp [initState] at hx⟩
  | step hr hst ih => exact fetchInvariant_step bs _ _ hst ih

/-- C5: in every reachable state at most one remote call is in flight; a
re-evaluation with an empty missing set or with a fetch in flight is a no-op
(no remote call, no error); and two re-evaluations before the first call
completes issue exactly one call, carrying the missing keys as of the moment
that call was issued. -/
theorem c5_single_flight (bs : BuildSchema) (s : HookState) (h : Reachable bs s) :
    (s.calls - s.completions ≤ 1) ∧
    (∀ ks, s.fetching = true ∨ missing ks s.loaded = [] → reeval ks s = s) ∧
    (∀ ks ks2, s.fetching = false → missing ks s.loaded ≠ [] →
      (reeval ks2 (reeval ks s)).calls = s.calls + 1 ∧
      (reeval ks2 (reeval ks s)).outstanding = some (missing ks s.loaded)) := by
  refine ⟨?_, fun ks hks => reeval_noop ks s hks, ?_⟩
  · have h1 := (reachable_invariant bs s h).1
    cases hos : s.outstanding.isSome <;> rw [hos] at h1 <;> simp at h1 <;> omega
  · intro ks ks2 hf hm
    rw [reeval_fires ks s hf hm, reeval_noop ks2 _ (Or.inl rfl)]
    exact ⟨rfl, rfl⟩

theorem c5_single_flight_witness :
    Reachable (fun _ _ => none) initState ∧
    initState.calls - initState.completions ≤ 1 :=
  ⟨Reachable.init, (c5_single_flight (fun _ _ => none) initState Reachable.init).1⟩

/-- C1 (code bug): at the failing input — a transport error on the remote call
issued for the missing key ["t1"] — the cache is left unchanged, but the
in-flight flag is NOT cleared: `await client.query` throws before
`fetching.current = false` runs, so `fetching` stays `true` and every later
re-evaluation is a no-op (the retry the claim promises never happens). By
contrast, a decoder failure does clear the flag and leaves the cache
unchanged, as the claim states. -/
theorem c1_transport_error_keeps_flag :
    (reeval [["t1"]] initState).fetching = true ∧
    (complete (fun _ _ => none) .transportError (reeval [["t1"]] initState)).fetching = true ∧
    (∀ id, (complete (fun _ _ => none) .transportError (reeval [["t1"]] initState)).loaded id =
      initState.loaded id) ∧
    (reeval [["t1"]] (complete (fun _ _ => none) .transportError (reeval [["t1"]] initState)) =
      complete (fun _ _ => none) .transportError (reeval [["t1"]] initState)) ∧
    (decodeBatch (fun _ _ => none) [⟨["t1"], [⟨"1", some none⟩]⟩] = .error ()) ∧
    ((complete (fun _ _ => none) (.response [⟨["t1"], [⟨"1", some none⟩]⟩])
        (reeval [["t1"]] initState)).fetching = false) ∧
    (∀ id, (complete (fun _ _ => none) (.response [⟨["t1"], [⟨"1", some none⟩]⟩])
        (reeval [["t1"]] initState)).loaded id = initState.loaded id) := by
  refine ⟨rfl, rfl, fun id => rfl, rfl, rfl, rfl, fun id => rfl⟩

end ColumnLineage
